import Mathlib

/-!
# A shallow embedding of the nango firmware RPC client core

This file embeds the core of the `nango` repository (the serial transport,
the scalar codec, and the call dispatcher of `firmware.go`, together with
the facade pieces of `arduinoapi.go` and the I2C facade file) as Lean
definitions, and proves or refutes the frozen specification claims about
them.

Modelling conventions:

* Go `interface{}` argument values become the inductive `GoVal`; a Go `nil`
  interface is `GoVal.vnil`, a `[]interface{}` is `GoVal.vlist`, and any
  value whose dynamic type is unsupported by the codec is `GoVal.vother`
  carrying the text that Go's `%T` verb would print for it.
* The serial device is modelled by the fields of `FirmwareConnection`:
  `portSet` is `s.port != nil` (set by `Open`, *not* cleared by `Close`,
  exactly as in the source), `handleOpen` is whether the underlying device
  handle is open, `buffer` is the `bufio.Writer` buffer, `device` is the
  byte stream the device has actually received (appended to by `Flush`),
  `script` is the scripted behaviour of the device's reply stream, and
  `portFlushes` counts calls of `port.Flush()`.
* The buffered `Write` never spills to the device on its own: the claims
  only exercise writes far below the 4096-byte `bufio` capacity, for which
  Go's `bufio.Writer.Write` touches only the buffer.
* Go's two-valued returns `(v, err)` are kept as pairs with an
  `Option GoError`; functions that mutate the connection also return the
  updated connection.  Go runtime panics (out-of-range indexing) are
  modelled by `Option.none` on the outside.
-/

/-- A Go `interface{}` value as far as the nango codec can observe it. -/
inductive GoVal where
  | vnil
  | vstr (s : String)
  | vint (n : Int)
  | vbool (b : Bool)
  | vlist (elems : List GoVal)
  | vother (tname : String)

/-- Is this the `nil` interface value? (`arg != nil` tests in the source.) -/
def GoVal.isNil : GoVal → Bool
  | .vnil => true
  | _ => false

/-- Is this a `[]interface\x7b\x7d` value? (the type assertion in `call`). -/
def GoVal.isList : GoVal → Bool
  | .vlist _ => true
  | _ => false

/-- Does the codec's type switch in `write` accept this value? -/
def GoVal.isScalar : GoVal → Bool
  | .vstr _ => true
  | .vint _ => true
  | .vbool _ => true
  | _ => false

/-- The text Go's `%T` verb prints for the dynamic type of the value. -/
def goTypeName : GoVal → String
  | .vnil => "<nil>"
  | .vstr _ => "string"
  | .vint _ => "int"
  | .vbool _ => "bool"
  | .vlist _ => "[]interface \x7b\x7d"
  | .vother t => t

/-- The errors the embedded core can produce. -/
inductive GoError where
  | portClosed
  | serialTimeout (msg : String)
  | scanFailed (msg : String)
  | deviceFailed (msg : String)
  | unsupportedType (tname : String)
  | i2cComm (code : Int)
deriving DecidableEq

/-- The message text carried by each error, as built in the source. -/
def GoError.message : GoError → String
  | .portClosed => "port is not opened: must call Open() first"
  | .serialTimeout m => m
  | .scanFailed m => m
  | .deviceFailed m => m
  | .unsupportedType t => "Firmware Write: Unsupported type " ++ t
  | .i2cComm _ => "i2c communication error"

/-- Model of `serial.Config`: the fields the core reads. -/
structure SerialConfig where
  name : String
  baud : Nat
deriving DecidableEq

/-- One scripted behaviour of the device's reply stream for one `ReadLine`:
either the scanner finds a full line first, or the timer wins, or the
scanner fails with a device-level error. -/
inductive ReadEvent where
  | line (s : String)
  | timeout
  | scanErr (msg : String)
deriving DecidableEq

/-- The state of a `FirmwareConnection` plus the modelled device. -/
structure FirmwareConnection where
  cfg : SerialConfig
  portSet : Bool
  handleOpen : Bool
  buffer : String
  device : String
  script : List ReadEvent
  portFlushes : Nat
deriving DecidableEq

/-- Source `NewFirmwareConnection`: construct with defaults, port still nil. -/
def NewFirmwareConnection (c : SerialConfig) : FirmwareConnection :=
  { cfg := c
    portSet := false
    handleOpen := false
    buffer := ""
    device := ""
    script := []
    portFlushes := 0 }

/-- Source `Open`: opens the device (the model takes the device's scripted reply
behaviour as a parameter), installs a fresh buffered read/writer and
flushes the port once.  Device-level open failure is not modelled: no
claim exercises it. -/
def FirmwareConnection.Open (s : FirmwareConnection) (script : List ReadEvent) :
    FirmwareConnection :=
  { s with
    portSet := true
    handleOpen := true
    buffer := ""
    script := script
    portFlushes := s.portFlushes + 1 }

/-- Source `Write`: guard on `s.port == nil`, then append to the bufio buffer. -/
def FirmwareConnection.Write (s : FirmwareConnection) (b : String) :
    Except GoError FirmwareConnection :=
  if s.portSet then .ok { s with buffer := s.buffer ++ b }
  else .error .portClosed

/-- Source `Flush`: guard on `s.port == nil`, then force the bufio buffer out to
the device; writing to a closed device handle fails. -/
def FirmwareConnection.Flush (s : FirmwareConnection) :
    Except GoError FirmwareConnection :=
  if s.portSet then
    if s.handleOpen then
      .ok { s with
        buffer := ""
        device := s.device ++ s.buffer }
    else .error (.deviceFailed ("write " ++ s.cfg.name ++ ": file already closed"))
  else .error .portClosed

/-- Source `ReadLine`: guard on `s.port == nil`; then the scripted race between
the scanning goroutine and the `ReadTimeout` timer.  On the timeout branch
the error is `SerialTimeoutError(name + " ReadLine timeout")`; on any error
the port is flushed once (the flush's own error is only logged). -/
def FirmwareConnection.ReadLine (s : FirmwareConnection) :
    Except GoError String × FirmwareConnection :=
  if s.portSet then
    match s.script with
    | ReadEvent.line l :: rest => (.ok l, { s with script := rest })
    | ReadEvent.timeout :: rest =>
        (.error (.serialTimeout (s.cfg.name ++ " ReadLine timeout")),
         { s with
           script := rest
           portFlushes := s.portFlushes + 1 })
    | ReadEvent.scanErr m :: rest =>
        (.error (.scanFailed ("error scanning bytes from port " ++ s.cfg.name ++ "\n: " ++ m)),
         { s with
           script := rest
           portFlushes := s.portFlushes + 1 })
    | [] =>
        (.error (.serialTimeout (s.cfg.name ++ " ReadLine timeout")),
         { s with portFlushes := s.portFlushes + 1 })
  else (.error .portClosed, s)

/-- Source `FlushPort`: guard on `s.port == nil`, then `port.Flush()`. -/
def FirmwareConnection.FlushPort (s : FirmwareConnection) :
    Except GoError FirmwareConnection :=
  if s.portSet then
    if s.handleOpen then .ok { s with portFlushes := s.portFlushes + 1 }
    else .error (.deviceFailed ("flush " ++ s.cfg.name ++ ": file already closed"))
  else .error .portClosed

/-- Source `Close`: returns nil if the port was never opened; otherwise closes
the device handle.  Note the source never sets `s.port = nil`, so
`portSet` stays `true` afterwards. -/
def FirmwareConnection.Close (s : FirmwareConnection) :
    Option GoError × FirmwareConnection :=
  if s.portSet then
    if s.handleOpen then (none, { s with handleOpen := false })
    else (some (.deviceFailed ("close " ++ s.cfg.name ++ ": file already closed")), s)
  else (none, s)

/-- The NUL field terminator appended after every encoded scalar. -/
def nul : String := "\x00"

/-- Source `write(data, conn)`: the scalar codec's type switch followed by
`conn.Write([]byte(s + "\000"))`. -/
def write (data : GoVal) (conn : FirmwareConnection) :
    Except GoError FirmwareConnection :=
  match data with
  | .vstr s => conn.Write (s ++ nul)
  | .vint n => conn.Write (toString n ++ nul)
  | .vbool true => conn.Write ("True" ++ nul)
  | .vbool false => conn.Write ("False" ++ nul)
  | v => .error (.unsupportedType (goTypeName v))

/-- Source `returnValue(conn)`: one `ReadLine`, string-ified on success, the pair
`("", err)` on failure. -/
def returnValue (conn : FirmwareConnection) :
    (String × Option GoError) × FirmwareConnection :=
  match conn.ReadLine with
  | (.ok b, c) => ((b, none), c)
  | (.error e, c) => (("", some e), c)

/-- The argument-flattening loop of `call`: a `[]interface\x7b\x7d`
argument is expanded one level with its `nil` elements dropped, a `nil`
argument is dropped, and anything else is kept as-is. -/
def flattenArgs : List GoVal → List GoVal
  | [] => []
  | GoVal.vnil :: rest => flattenArgs rest
  | GoVal.vlist ls :: rest => ls.filter (fun e => !e.isNil) ++ flattenArgs rest
  | arg :: rest => arg :: flattenArgs rest

/-- The argument-writing loop of `call`; on a failing `write` the loop
stops and the connection state at the failure point is returned. -/
def writeAll : List GoVal → FirmwareConnection →
    Option GoError × FirmwareConnection
  | [], c => (none, c)
  | v :: vs, c =>
      match write v c with
      | .error e => (some e, c)
      | .ok c2 => writeAll vs c2

/-- Source `call(namespace, id, args, conn)`: the dispatcher.  The global mutex
around the body is irrelevant to this sequential semantics; the
concurrency claim is settled over the event-trace model further below. -/
def call (ns : String) (id : Int) (args : List GoVal)
    (conn : FirmwareConnection) :
    (String × Option GoError) × FirmwareConnection :=
  match write (.vstr ns) conn with
  | .error e => (("", some e), conn)
  | .ok c1 =>
    match write (.vint id) c1 with
    | .error e => (("", some e), c1)
    | .ok c2 =>
      let toprint := flattenArgs args
      let nel : Int := toprint.length
      match write (.vint (nel - 1)) c2 with
      | .error e => (("", some e), c2)
      | .ok c3 =>
        match writeAll toprint c3 with
        | (some e, cf) => (("", some e), cf)
        | (none, c4) =>
          match c4.Flush with
          | .error e => (("", some e), c4)
          | .ok c5 => returnValue c5

/-- Source `prependName`: `append` a slot, `copy` everything up one, overwrite
slot 0 — the net effect on the Go slice is prepending `name`. -/
def prependName (args : List GoVal) (name : String) : List GoVal :=
  GoVal.vstr name :: args

/-- Source `FirmwareClass`: a namespace/id pair bound to a connection. -/
structure FirmwareClass where
  Conn : FirmwareConnection
  Id : Int
  Namespace : String

/-- Source `ArduinoMethodCall(f, methodName, args...)`. -/
def ArduinoMethodCall (f : FirmwareClass) (methodName : String)
    (args : List GoVal) : (String × Option GoError) × FirmwareConnection :=
  call f.Namespace f.Id (prependName args methodName) f.Conn

/-- Source `CallAndReturnByte`: the source passes its own variadic `args` slice
as a *single* variadic element of `ArduinoMethodCall` (no `args...`
spread), so the dispatcher sees the one-element list `[vlist args]`.  It
then evaluates `s[0]` before inspecting `err`; an empty reply makes that
index out of range, a runtime panic, modelled as `none`. -/
def CallAndReturnByte (f : FirmwareClass) (methodName : String)
    (args : List GoVal) :
    Option ((Char × Option GoError) × FirmwareConnection) :=
  match ArduinoMethodCall f methodName [GoVal.vlist args] with
  | ((s, err), c) =>
      match s.data with
      | [] => none
      | ch :: _ => some ((ch, err), c)

/-- The bytes `write` hands to the transport for a codec-supported value
(undefined garbage `""` on unsupported values, which `write` rejects). -/
def encOf : GoVal → String
  | .vstr s => s ++ nul
  | .vint n => toString n ++ nul
  | .vbool true => "True" ++ nul
  | .vbool false => "False" ++ nul
  | _ => ""

/-- Concatenate encoded chunks. -/
def encChunks : List String → String
  | [] => ""
  | c :: cs => c ++ encChunks cs

/-- The ordered list of NUL-terminated fields one `call` writes:
namespace, id, `(flattened count) - 1`, then each flattened argument. -/
def requestChunks (ns : String) (id : Int) (args : List GoVal) : List String :=
  (ns ++ nul) :: (toString id ++ nul) ::
    (toString (((flattenArgs args).length : Int) - 1) ++ nul) ::
    (flattenArgs args).map encOf

/-- The outcomes of the wire-facade sub-calls one `I2CMaster.Send` makes,
in source order: `m.begin()`, `m.wire.BeginTransmission(address)`,
`m.wire.Write(data)` and `m.wire.EndTransmission(true)` (which returns a
status code alongside its error). -/
structure SendOutcomes where
  beginErr : Option GoError
  beginTransmissionErr : Option GoError
  writeErr : Option GoError
  endTransmissionCode : Int
  endTransmissionErr : Option GoError

/-- Source `I2CMaster.Send`, with each wire sub-call replaced by its scripted
outcome.  The `beginTransmissionErr` branch reproduces the source's
`if err != nil { return nil }` literally. -/
def I2CMasterSend (o : SendOutcomes) : Option GoError :=
  match o.beginErr with
  | some e => some e
  | none =>
    match o.beginTransmissionErr with
    | some _ => none
    | none =>
      match o.writeErr with
      | some e => some e
      | none =>
        match o.endTransmissionErr with
        | some e => some e
        | none =>
          if o.endTransmissionCode ≠ 0 then some (.i2cComm o.endTransmissionCode)
          else none

/-!
## Event-trace model for the dispatcher's mutual exclusion

`call` takes the package-wide `mutex` before its first `write` and releases
it (via `defer`) after the reply is read, so one call is the event sequence
`lock; emit…; unlock`.  A scheduling of several concurrent calls is an
interleaving of their event sequences; an interleaving the Go runtime can
actually produce is one that respects the mutex discipline (`MutexOK`).
-/

/-- One observable action of a call `cid` on the shared medium. -/
inductive CallEvent where
  | lock (cid : Nat)
  | unlock (cid : Nat)
  | emit (cid : Nat) (bytes : String)
deriving DecidableEq

/-- The event sequence of one `call`: take the global mutex, emit every
request chunk, release the mutex. -/
def callEvents (cid : Nat) (ns : String) (id : Int) (args : List GoVal) :
    List CallEvent :=
  CallEvent.lock cid ::
    ((requestChunks ns id args).map (CallEvent.emit cid) ++ [CallEvent.unlock cid])

/-- Whether a trace respects the mutex discipline from a given holder:
taking the lock requires it free, and only the holder may emit or
unlock. -/
def MutexOKFrom : Option Nat → List CallEvent → Bool
  | _, [] => true
  | none, .lock c :: tr => MutexOKFrom (some c) tr
  | none, .unlock _ :: _ => false
  | none, .emit _ _ :: _ => false
  | some _, .lock _ :: _ => false
  | some c, .unlock c2 :: tr => c2 = c && MutexOKFrom none tr
  | some c, .emit c2 _ :: tr => c2 = c && MutexOKFrom (some c) tr

/-- A trace the Go runtime can produce: mutex discipline from no holder. -/
def MutexOK (tr : List CallEvent) : Bool := MutexOKFrom none tr

/-- The call ids of the emit events of a trace, in order. -/
def emitIds (tr : List CallEvent) : List Nat :=
  tr.filterMap fun e =>
    match e with
    | .emit c _ => some c
    | _ => none

/-- How many times call `c` takes the lock in a trace. -/
def lockCount (c : Nat) (tr : List CallEvent) : Nat :=
  (tr.filter fun e => e = CallEvent.lock c).length

/-- Boolean membership in a list of ids. -/
def memb (x : Nat) : List Nat → Bool
  | [] => false
  | y :: ys => x = y || memb x ys

mutual
/-- Predicate `runsFrom seen l`: `l` splits into contiguous runs of equal ids, no
run id repeating and none in `seen`. -/
def runsFrom (seen : List Nat) : List Nat → Bool
  | [] => true
  | x :: xs => !memb x seen && runsIn (x :: seen) x xs
/-- Predicate `runsIn seen x l`: like `runsFrom` but currently inside a run of `x`
(`x` is already in `seen`). -/
def runsIn (seen : List Nat) (x : Nat) : List Nat → Bool
  | [] => true
  | y :: ys => if y = x then runsIn seen x ys else !memb y seen && runsIn (y :: seen) y ys
end

/-- The id sequence is a concatenation of contiguous runs with pairwise
distinct ids: no call's bytes interleave another's. -/
def contiguousRuns (l : List Nat) : Bool := runsFrom [] l

/-- Holds when `tr` is an interleaving of the sequences `ss` (each kept in order). -/
inductive Interleave : List (List CallEvent) → List CallEvent → Prop where
  | nil (ss : List (List CallEvent)) (h : ∀ s ∈ ss, s = []) : Interleave ss []
  | cons (e : CallEvent) (s : List CallEvent) (pre post : List (List CallEvent))
      (tr : List CallEvent) (h : Interleave (pre ++ s :: post) tr) :
      Interleave (pre ++ (e :: s) :: post) (e :: tr)

/-! ## Shared lemmas about the dispatcher -/

theorem write_scalar (v : GoVal) (c : FirmwareConnection)
    (h : v.isScalar = true) : write v c = c.Write (encOf v) := by
  cases v with
  | vstr s => rfl
  | vint n => rfl
  | vbool b => cases b <;> rfl
  | vnil => simp [GoVal.isScalar] at h
  | vlist l => simp [GoVal.isScalar] at h
  | vother t => simp [GoVal.isScalar] at h

theorem write_nonscalar (v : GoVal) (c : FirmwareConnection)
    (h : v.isScalar = false) :
    write v c = .error (.unsupportedType (goTypeName v)) := by
  cases v with
  | vstr s => simp [GoVal.isScalar] at h
  | vint n => simp [GoVal.isScalar] at h
  | vbool b => simp [GoVal.isScalar] at h
  | vnil => rfl
  | vlist l => rfl
  | vother t => rfl

theorem writeAll_scalars (vs : List GoVal) :
    ∀ (cfg : SerialConfig) (ho : Bool) (b d : String)
      (sc : List ReadEvent) (k : Nat), vs.all GoVal.isScalar = true →
    writeAll vs ⟨cfg, true, ho, b, d, sc, k⟩ =
      (none, ⟨cfg, true, ho, b ++ encChunks (vs.map encOf), d, sc, k⟩) := by
  induction vs with
  | nil =>
      intro cfg ho b d sc k _
      simp [writeAll, encChunks, String.append_empty]
  | cons v vs ih =>
      intro cfg ho b d sc k h
      rw [List.all_cons, Bool.and_eq_true] at h
      rw [writeAll, write_scalar v _ h.1]
      show writeAll vs ⟨cfg, true, ho, b ++ encOf v, d, sc, k⟩ = _
      rw [ih cfg ho (b ++ encOf v) d sc k h.2]
      simp [encChunks, String.append_assoc]

/-- Is some element of the list a `[]interface\x7b\x7d` value? -/
def hasListElem (l : List GoVal) : Bool := l.any GoVal.isList

/-- No element of a list-valued argument is itself list-valued
(nesting depth at most one below the top level). -/
def GoVal.shallow : GoVal → Bool
  | .vlist l => l.all fun e => !e.isList
  | _ => true

/-- A concrete serial configuration for witnesses. -/
def demoCfg : SerialConfig := ⟨"/dev/ttyUSB0", 9600⟩

/-- A connection that has been opened and then closed: `Close` closed the
device handle but, as in the source, left `s.port` set. -/
def connAfterClose : FirmwareConnection :=
  (((NewFirmwareConnection demoCfg).Open []).Close).2

/-- A nesting-depth-3 argument list: one list argument whose single
element is itself a list. -/
def c4input : List GoVal := [GoVal.vlist [GoVal.vlist [GoVal.vstr "a"]]]

/-- A demo erroring facade class for the `CallAndReturnByte` witness: its
connection was never opened, so the underlying call fails. -/
def demoClosedClass : FirmwareClass :=
  ⟨NewFirmwareConnection demoCfg, 0, "Wire"⟩

/-- A sequential schedule of two complete calls, for the concurrency
witness. -/
def demoTrace : List CallEvent :=
  callEvents 0 "A" 0 [GoVal.vstr "dw"] ++ callEvents 1 "Wire" 0 [GoVal.vint 2]

/-- Scripted outcomes where `BeginTransmission` fails, for the `Send`
witness. -/
def demoSendOutcomes : SendOutcomes :=
  ⟨none, some GoError.portClosed, none, 0, none⟩

/-! ## Lemmas leading to the claims -/

theorem call_request (ns : String) (id : Int) (args : List GoVal)
    (cfg : SerialConfig) (d : String) (sc : List ReadEvent) (k : Nat)
    (h : (flattenArgs args).all GoVal.isScalar = true) :
    call ns id args ⟨cfg, true, true, "", d, sc, k⟩ =
      returnValue ⟨cfg, true, true, "",
        d ++ encChunks (requestChunks ns id args), sc, k⟩ := by
  show (match writeAll (flattenArgs args) ⟨cfg, true, true,
          (("" ++ (ns ++ nul)) ++ (toString id ++ nul)) ++
            (toString (((flattenArgs args).length : Int) - 1) ++ nul), d, sc, k⟩ with
        | (some e, cf) => (("", some e), cf)
        | (none, c4) =>
          match c4.Flush with
          | .error e => (("", some e), c4)
          | .ok c5 => returnValue c5) = _
  rw [writeAll_scalars (flattenArgs args) cfg true _ d sc k h]
  show returnValue ⟨cfg, true, true, "",
      d ++ ("" ++ (ns ++ nul) ++ (toString id ++ nul) ++
        (toString (((flattenArgs args).length : Int) - 1) ++ nul) ++
        encChunks (List.map encOf (flattenArgs args))), sc, k⟩ = _
  have hs : d ++ ("" ++ (ns ++ nul) ++ (toString id ++ nul) ++
        (toString (((flattenArgs args).length : Int) - 1) ++ nul) ++
        encChunks (List.map encOf (flattenArgs args))) =
      d ++ encChunks (requestChunks ns id args) := by
    simp [requestChunks, encChunks, String.append_assoc, String.empty_append]
  rw [hs]

theorem returnValue_device (c : FirmwareConnection) :
    (returnValue c).2.device = c.device := by
  obtain ⟨cfg, ps, ho, b, d, sc, k⟩ := c
  cases ps with
  | false => rfl
  | true =>
      cases sc with
      | nil => rfl
      | cons ev rest => cases ev <;> rfl

theorem writeAll_firstbad (vs : List GoVal) :
    ∀ (cfg : SerialConfig) (ho : Bool) (b d : String)
      (sc : List ReadEvent) (k : Nat) (v : GoVal),
    vs.find? (fun x => !x.isScalar) = some v →
    ∃ b2, writeAll vs ⟨cfg, true, ho, b, d, sc, k⟩ =
      (some (.unsupportedType (goTypeName v)), ⟨cfg, true, ho, b2, d, sc, k⟩) := by
  induction vs with
  | nil => intro cfg ho b d sc k v h; simp [List.find?] at h
  | cons u vs ih =>
      intro cfg ho b d sc k v h
      rw [List.find?_cons] at h
      cases hu : u.isScalar with
      | true =>
          rw [hu] at h
          simp only [Bool.not_true] at h
          rw [writeAll, write_scalar u _ hu]
          exact ih cfg ho (b ++ encOf u) d sc k v h
      | false =>
          simp only [hu, Bool.not_false] at h
          rw [Option.some.injEq] at h
          subst h
          refine ⟨b, ?_⟩
          rw [writeAll, write_nonscalar u _ hu]

theorem flattenArgs_append (xs ys : List GoVal) :
    flattenArgs (xs ++ ys) = flattenArgs xs ++ flattenArgs ys := by
  induction xs with
  | nil => rfl
  | cons a xs ih => cases a <;> simp [flattenArgs, ih, List.append_assoc]

theorem flattenArgs_fixed (l : List GoVal)
    (h : ∀ e ∈ l, e.isList = false ∧ e.isNil = false) : flattenArgs l = l := by
  induction l with
  | nil => rfl
  | cons a l ih =>
      have ha := h a (List.mem_cons_self a l)
      have hl : ∀ e ∈ l, e.isList = false ∧ e.isNil = false :=
        fun e he => h e (List.mem_cons_of_mem a he)
      cases a with
      | vnil => simp [GoVal.isNil] at ha
      | vlist t => simp [GoVal.isList] at ha
      | vstr s => simp [flattenArgs, ih hl]
      | vint n => simp [flattenArgs, ih hl]
      | vbool b => simp [flattenArgs, ih hl]
      | vother t => simp [flattenArgs, ih hl]

theorem flattenArgs_shallow_elems (args : List GoVal)
    (h : args.all GoVal.shallow = true) :
    ∀ e ∈ flattenArgs args, e.isList = false ∧ e.isNil = false := by
  induction args with
  | nil => intro e he; simp [flattenArgs] at he
  | cons a args ih =>
      rw [List.all_cons, Bool.and_eq_true] at h
      intro e he
      cases a with
      | vnil => exact ih h.2 e he
      | vlist t =>
          rw [flattenArgs, List.mem_append] at he
          rcases he with he | he
          · rw [List.mem_filter] at he
            refine ⟨?_, by simpa using he.2⟩
            have := h.1
            rw [show GoVal.shallow (GoVal.vlist t) = t.all (fun e => !e.isList) from rfl,
              List.all_eq_true] at this
            simpa using this e he.1
          · exact ih h.2 e he
      | vstr s =>
          rcases (List.mem_cons.mp he) with he | he
          · subst he; exact ⟨rfl, rfl⟩
          · exact ih h.2 e he
      | vint n =>
          rcases (List.mem_cons.mp he) with he | he
          · subst he; exact ⟨rfl, rfl⟩
          · exact ih h.2 e he
      | vbool b =>
          rcases (List.mem_cons.mp he) with he | he
          · subst he; exact ⟨rfl, rfl⟩
          · exact ih h.2 e he
      | vother t =>
          rcases (List.mem_cons.mp he) with he | he
          · subst he; exact ⟨rfl, rfl⟩
          · exact ih h.2 e he

theorem call_empty_or_ok (ns : String) (id : Int) (args : List GoVal)
    (conn : FirmwareConnection) :
    (call ns id args conn).1.2 = none ∨ (call ns id args conn).1.1 = "" := by
  simp only [call]
  split
  · right; rfl
  · split
    · right; rfl
    · split
      · right; rfl
      · split
        · right; rfl
        · split
          · right; rfl
          · simp only [returnValue]
            split
            · left; rfl
            · right; rfl

/-- Claim C1: on an open connection, `call("A", 0, ["dw","13","1"])` writes
exactly the bytes `A\x00 0\x00 2\x00 dw\x00 13\x00 1\x00` in that order,
and with the device replying the line `ok` it returns `"ok"` and no
error. -/
theorem claim_C1 (cfg : SerialConfig) (d : String) (rest : List ReadEvent)
    (k : Nat) :
    call "A" 0 [GoVal.vstr "dw", GoVal.vstr "13", GoVal.vstr "1"]
      ⟨cfg, true, true, "", d, ReadEvent.line "ok" :: rest, k⟩ =
    (("ok", none),
      ⟨cfg, true, true, "",
       d ++ ("A\x00" ++ "0\x00" ++ "2\x00" ++ "dw\x00" ++ "13\x00" ++ "1\x00"),
       rest, k⟩) := rfl

/-- Claim C2: on an open connection whose transport never yields a line
within the timeout, `ReadLine` returns a Timeout error whose message is the
port identifier followed by `" ReadLine timeout"` and flushes the port
exactly once more; a `call` in that situation returns `""` together with
that Timeout error. -/
theorem claim_C2 (cfg : SerialConfig) (b d : String) (rest : List ReadEvent)
    (k : Nat) :
    (FirmwareConnection.ReadLine ⟨cfg, true, true, b, d, ReadEvent.timeout :: rest, k⟩ =
      (.error (.serialTimeout (cfg.name ++ " ReadLine timeout")),
       ⟨cfg, true, true, b, d, rest, k + 1⟩)) ∧
    ((GoError.serialTimeout (cfg.name ++ " ReadLine timeout")).message =
      cfg.name ++ " ReadLine timeout") ∧
    (call "A" 0 [GoVal.vstr "dw", GoVal.vstr "13", GoVal.vstr "1"]
        ⟨cfg, true, true, "", d, ReadEvent.timeout :: rest, k⟩ =
      (("", some (.serialTimeout (cfg.name ++ " ReadLine timeout"))),
       ⟨cfg, true, true, "",
        d ++ ("A\x00" ++ "0\x00" ++ "2\x00" ++ "dw\x00" ++ "13\x00" ++ "1\x00"),
        rest, k + 1⟩)) :=
  ⟨rfl, rfl, rfl⟩

/-- Claim C3 counterexample: after `Open` then `Close`, the source leaves
`s.port` non-nil, so a buffered `Write` does *not* fail with PortClosed —
it succeeds. -/
theorem claim_C3_counterexample :
    connAfterClose.Write "x" ≠ Except.error GoError.portClosed := by
  intro h
  rw [show connAfterClose.Write "x" =
    Except.ok ⟨demoCfg, true, false, "x", "", [], 1⟩ from rfl] at h
  exact Except.noConfusion h

/-- Claim C3 (amended): before `Open` has ever been called (`s.port` still
nil) every operation other than `Open` — `Write`, `Flush`, `ReadLine`,
`FlushPort` — fails with a PortClosed error; `Close`, however, leaves the
port field set, so after a `Close` the PortClosed guard can no longer
fire. -/
theorem claim_C3 (cfg : SerialConfig) (ho : Bool) (b d bytes : String)
    (sc sc2 : List ReadEvent) (k : Nat) :
    (FirmwareConnection.Write ⟨cfg, false, ho, b, d, sc, k⟩ bytes =
      .error .portClosed) ∧
    (FirmwareConnection.Flush ⟨cfg, false, ho, b, d, sc, k⟩ =
      .error .portClosed) ∧
    (FirmwareConnection.ReadLine ⟨cfg, false, ho, b, d, sc, k⟩ =
      (.error .portClosed, ⟨cfg, false, ho, b, d, sc, k⟩)) ∧
    (FirmwareConnection.FlushPort ⟨cfg, false, ho, b, d, sc, k⟩ =
      .error .portClosed) ∧
    ((FirmwareConnection.Close
        (FirmwareConnection.Open ⟨cfg, false, ho, b, d, sc, k⟩ sc2)).2.portSet = true) :=
  ⟨rfl, rfl, rfl, rfl, rfl⟩

/-- Claim C4 counterexample: flattening expands list arguments one level
only, so on a depth-3 input it is not idempotent. -/
theorem claim_C4_counterexample :
    ¬ flattenArgs c4input = flattenArgs (flattenArgs c4input) := by
  intro h
  have h2 := congrArg hasListElem h
  rw [show hasListElem (flattenArgs c4input) = true from rfl,
      show hasListElem (flattenArgs (flattenArgs c4input)) = false from rfl] at h2
  exact Bool.noConfusion h2

/-- Claim C4 (amended): the dispatcher's flattening (expand list-valued
arguments one level in place, drop null entries) is idempotent on every
argument list whose list-valued arguments contain no list-valued element
themselves — exactly the shape one level of expansion can fully flatten. -/
theorem claim_C4 (args : List GoVal) (h : args.all GoVal.shallow = true) :
    flattenArgs args = flattenArgs (flattenArgs args) :=
  (flattenArgs_fixed (flattenArgs args) (flattenArgs_shallow_elems args h)).symm

/-- Witness for C4 at a concrete shallow nested input. -/
theorem claim_C4_witness :
    [GoVal.vlist [GoVal.vstr "a", GoVal.vnil], GoVal.vstr "b",
      GoVal.vnil].all GoVal.shallow = true ∧
    flattenArgs [GoVal.vlist [GoVal.vstr "a", GoVal.vnil], GoVal.vstr "b",
      GoVal.vnil] =
      flattenArgs (flattenArgs [GoVal.vlist [GoVal.vstr "a", GoVal.vnil],
        GoVal.vstr "b", GoVal.vnil]) :=
  ⟨by decide, claim_C4 _ (by decide)⟩

/-- Claim C5: on an open connection, a fully scalar call deposits on the
device exactly the concatenated request chunks, and the third chunk — the
count field — is the decimal encoding of `(flattened length) - 1`, so a
one-argument call emits `0`. -/
theorem claim_C5 (ns : String) (id : Int) (args : List GoVal)
    (cfg : SerialConfig) (d : String) (sc : List ReadEvent) (k : Nat)
    (h : (flattenArgs args).all GoVal.isScalar = true) :
    ((call ns id args ⟨cfg, true, true, "", d, sc, k⟩).2.device =
      d ++ encChunks (requestChunks ns id args)) ∧
    ((requestChunks ns id args).get? 2 =
      some (toString (((flattenArgs args).length : Int) - 1) ++ nul)) := by
  refine ⟨?_, rfl⟩
  rw [call_request ns id args cfg d sc k h, returnValue_device]

/-- Witness for C5: a one-argument call emits the count field `0`. -/
theorem claim_C5_witness :
    ((flattenArgs [GoVal.vstr "dw"]).all GoVal.isScalar = true) ∧
    ((call "A" 0 [GoVal.vstr "dw"]
        ⟨demoCfg, true, true, "", "", [], 0⟩).2.device =
      "" ++ encChunks (requestChunks "A" 0 [GoVal.vstr "dw"])) ∧
    ((requestChunks "A" 0 [GoVal.vstr "dw"]).get? 2 = some ("0" ++ nul)) := by
  refine ⟨by decide, ?_, ?_⟩
  · exact (claim_C5 "A" 0 [GoVal.vstr "dw"] demoCfg "" [] 0 (by decide)).1
  · exact (claim_C5 "A" 0 [GoVal.vstr "dw"] demoCfg "" [] 0 (by decide)).2

/-- Claim C6: if the flattened argument list contains a value the codec
does not support, the call returns `""` with an UnsupportedType error
naming that value's concrete type, and nothing is flushed to the device —
the device bytes and the port flush count are untouched. -/
theorem claim_C6 (ns : String) (id : Int) (args : List GoVal)
    (cfg : SerialConfig) (d : String) (sc : List ReadEvent) (k : Nat)
    (v : GoVal)
    (h : (flattenArgs args).find? (fun x => !x.isScalar) = some v) :
    ((call ns id args ⟨cfg, true, true, "", d, sc, k⟩).1 =
      ("", some (.unsupportedType (goTypeName v)))) ∧
    ((call ns id args ⟨cfg, true, true, "", d, sc, k⟩).2.device = d) ∧
    ((call ns id args ⟨cfg, true, true, "", d, sc, k⟩).2.portFlushes = k) ∧
    ((GoError.unsupportedType (goTypeName v)).message =
      "Firmware Write: Unsupported type " ++ goTypeName v) := by
  obtain ⟨b2, hw⟩ := writeAll_firstbad (flattenArgs args) cfg true
    ((("" ++ (ns ++ nul)) ++ (toString id ++ nul)) ++
      (toString (((flattenArgs args).length : Int) - 1) ++ nul)) d sc k v h
  have hc : call ns id args ⟨cfg, true, true, "", d, sc, k⟩ =
      (("", some (.unsupportedType (goTypeName v))),
       ⟨cfg, true, true, b2, d, sc, k⟩) := by
    show (match writeAll (flattenArgs args) ⟨cfg, true, true,
            (("" ++ (ns ++ nul)) ++ (toString id ++ nul)) ++
              (toString (((flattenArgs args).length : Int) - 1) ++ nul), d, sc, k⟩ with
          | (some e, cf) => (("", some e), cf)
          | (none, c4) =>
            match c4.Flush with
            | .error e => (("", some e), c4)
            | .ok c5 => returnValue c5) = _
    rw [hw]
  rw [hc]
  exact ⟨rfl, rfl, rfl, rfl⟩

/-- Witness for C6: one `float64` argument aborts the call before any
flush. -/
theorem claim_C6_witness :
    ((flattenArgs [GoVal.vother "float64"]).find? (fun x => !x.isScalar) =
      some (GoVal.vother "float64")) ∧
    ((call "A" 0 [GoVal.vother "float64"]
        ⟨demoCfg, true, true, "", "", [], 0⟩).1 =
      ("", some (.unsupportedType "float64"))) ∧
    ((call "A" 0 [GoVal.vother "float64"]
        ⟨demoCfg, true, true, "", "", [], 0⟩).2.device = "") := by
  have hfind : (flattenArgs [GoVal.vother "float64"]).find?
      (fun x => !x.isScalar) = some (GoVal.vother "float64") := rfl
  have h := claim_C6 "A" 0 [GoVal.vother "float64"] demoCfg "" [] 0
    (GoVal.vother "float64") hfind
  exact ⟨hfind, h.1, h.2.1⟩

/-- Claim C7: the scalar encoder sends `true` as the literal `True` and
`false` as `False` (capitalised), an integer as its decimal text and a
string as its raw bytes, each followed by exactly one NUL byte. -/
theorem claim_C7 :
    (∀ c, write (GoVal.vbool true) c = c.Write ("True" ++ nul)) ∧
    (∀ c, write (GoVal.vbool false) c = c.Write ("False" ++ nul)) ∧
    (∀ n c, write (GoVal.vint n) c = c.Write (toString n ++ nul)) ∧
    (∀ s c, write (GoVal.vstr s) c = c.Write (s ++ nul)) ∧
    nul.data = [Char.ofNat 0] :=
  ⟨fun _ => rfl, fun _ => rfl, fun _ _ => rfl, fun _ _ => rfl, rfl⟩

/-- Claim C9: `CallAndReturnByte` indexes `s[0]` before examining the
error; whenever the underlying call errors the reply is `""` and the index
is out of range — a runtime panic, modelled as `none` — and the access is
safe exactly when the reply is non-empty. -/
theorem claim_C9 (f : FirmwareClass) (mn : String) (args : List GoVal) :
    ((ArduinoMethodCall f mn [GoVal.vlist args]).1.2 ≠ none →
      CallAndReturnByte f mn args = none) ∧
    ((CallAndReturnByte f mn args).isSome = true ↔
      (ArduinoMethodCall f mn [GoVal.vlist args]).1.1 ≠ "") := by
  have hco := call_empty_or_ok f.Namespace f.Id
    (prependName [GoVal.vlist args] mn) f.Conn
  rcases hq : ArduinoMethodCall f mn [GoVal.vlist args] with ⟨⟨s, err⟩, c⟩
  rw [show call f.Namespace f.Id (prependName [GoVal.vlist args] mn) f.Conn =
    ArduinoMethodCall f mn [GoVal.vlist args] from rfl, hq] at hco
  simp only at hco
  have hbyte : CallAndReturnByte f mn args =
      (match s.data with
       | [] => none
       | ch :: _ => some ((ch, err), c)) := by
    rw [CallAndReturnByte, hq]
  obtain ⟨sd⟩ := s
  constructor
  · intro hne
    have hne2 : err ≠ none := hne
    rcases hco with hco | hco
    · exact absurd hco hne2
    · rw [hbyte]
      rw [show (String.mk sd).data = sd from rfl]
      have hsd : sd = [] := congrArg String.data hco
      rw [hsd]
  · rw [hbyte]
    show _ ↔ String.mk sd ≠ ""
    cases sd with
    | nil =>
        constructor
        · intro hfalse; exact Bool.noConfusion hfalse
        · intro hne; exact absurd rfl hne
    | cons ch tl =>
        simp only [Option.isSome_some, ne_eq, true_iff]
        intro heq
        have : (ch :: tl : List Char) = [] := congrArg String.data heq
        exact List.noConfusion this

/-- Claim C10: when `m.begin()` succeeds and `wire.BeginTransmission`
returns a non-nil error, `I2CMaster.Send` returns nil — it reports success
and swallows the transmission-setup failure. -/
theorem claim_C10 (o : SendOutcomes) (e : GoError)
    (h1 : o.beginErr = none) (h2 : o.beginTransmissionErr = some e) :
    I2CMasterSend o = none := by
  rw [I2CMasterSend, h1, h2]

/-- Witness for C10 at concrete scripted outcomes. -/
theorem claim_C10_witness :
    demoSendOutcomes.beginErr = none ∧
    demoSendOutcomes.beginTransmissionErr = some GoError.portClosed ∧
    I2CMasterSend demoSendOutcomes = none :=
  ⟨rfl, rfl, claim_C10 demoSendOutcomes GoError.portClosed rfl rfl⟩

/-- Witness for C9: a never-opened connection makes the underlying call
fail, and `CallAndReturnByte` hits the out-of-range index. -/
theorem claim_C9_witness :
    (ArduinoMethodCall demoClosedClass "read" [GoVal.vlist []]).1.2 ≠ none ∧
    CallAndReturnByte demoClosedClass "read" [] = none := by
  have hne : (ArduinoMethodCall demoClosedClass "read" [GoVal.vlist []]).1.2 ≠ none := by
    rw [show (ArduinoMethodCall demoClosedClass "read" [GoVal.vlist []]).1.2 =
      some GoError.portClosed from rfl]
    intro h; exact Option.noConfusion h
  exact ⟨hne, (claim_C9 demoClosedClass "read" []).1 hne⟩

theorem memb_iff (x : Nat) (l : List Nat) : memb x l = true ↔ x ∈ l := by
  induction l with
  | nil => simp [memb]
  | cons y ys ih => simp [memb, ih]

theorem memb_false_iff (x : Nat) (l : List Nat) : memb x l = false ↔ x ∉ l := by
  rw [← memb_iff]
  cases memb x l <;> simp

theorem lockCount_cons (c : Nat) (e : CallEvent) (tr : List CallEvent) :
    lockCount c (e :: tr) =
      (if e = CallEvent.lock c then 1 else 0) + lockCount c tr := by
  rw [lockCount, lockCount, List.filter_cons]
  by_cases he : e = CallEvent.lock c
  · simp [he, Nat.add_comm]
  · simp [he]

theorem noLockNoEmit (tr : List CallEvent) :
    ∀ (h : Option Nat) (c : Nat), MutexOKFrom h tr = true →
      h ≠ some c → lockCount c tr = 0 → c ∉ emitIds tr := by
  induction tr with
  | nil => intro h c _ _ _; simp [emitIds]
  | cons e tr ih =>
      intro h c hmx hh hlk
      rw [lockCount_cons] at hlk
      cases h with
      | none =>
          cases e with
          | lock c0 =>
              have hmx2 : MutexOKFrom (some c0) tr = true := hmx
              have hne : CallEvent.lock c0 ≠ CallEvent.lock c := by
                intro hx
                rw [if_pos hx] at hlk
                omega
              rw [if_neg hne, Nat.zero_add] at hlk
              have hc0 : (some c0 : Option Nat) ≠ some c := by
                intro hx
                rw [Option.some.injEq] at hx
                exact hne (by rw [hx])
              exact ih (some c0) c hmx2 hc0 hlk
          | unlock c0 => exact absurd hmx (by simp [MutexOKFrom])
          | emit c0 b => exact absurd hmx (by simp [MutexOKFrom])
      | some c1 =>
          cases e with
          | lock c0 => exact absurd hmx (by simp [MutexOKFrom])
          | unlock c0 =>
              rw [show MutexOKFrom (some c1) (CallEvent.unlock c0 :: tr) =
                (decide (c0 = c1) && MutexOKFrom none tr) from rfl,
                Bool.and_eq_true] at hmx
              rw [if_neg (by intro hx; exact CallEvent.noConfusion hx),
                Nat.zero_add] at hlk
              exact ih none c hmx.2 (by intro hx; exact Option.noConfusion hx) hlk
          | emit c0 b =>
              rw [show MutexOKFrom (some c1) (CallEvent.emit c0 b :: tr) =
                (decide (c0 = c1) && MutexOKFrom (some c1) tr) from rfl,
                Bool.and_eq_true, decide_eq_true_eq] at hmx
              rw [if_neg (by intro hx; exact CallEvent.noConfusion hx),
                Nat.zero_add] at hlk
              rw [show emitIds (CallEvent.emit c0 b :: tr) = c0 :: emitIds tr from rfl]
              intro hmem
              rcases List.mem_cons.mp hmem with hx | hx
              · exact hh (by rw [hx, hmx.1])
              · exact ih (some c1) c hmx.2 hh hlk hx

theorem runs_mono (l : List Nat) :
    ∀ (seen seen2 : List Nat) (x : Nat), (∀ a, a ∈ seen → a ∈ seen2) →
      (runsIn seen2 x l = true → runsIn seen x l = true) ∧
      (runsFrom seen2 l = true → runsFrom seen l = true) := by
  induction l with
  | nil => intro seen seen2 x _; exact ⟨fun _ => rfl, fun _ => rfl⟩
  | cons y ys ih =>
      intro seen seen2 x hsub
      have hcontain : memb y seen2 = false → memb y seen = false := by
        intro h2
        rw [memb_false_iff] at h2 ⊢
        intro hy
        exact h2 (hsub y hy)
      have hsub2 : ∀ a, a ∈ y :: seen → a ∈ y :: seen2 := by
        intro a ha
        rcases List.mem_cons.mp ha with ha | ha
        · exact ha ▸ List.mem_cons_self y seen2
        · exact List.mem_cons_of_mem y (hsub a ha)
      constructor
      · intro h
        rw [runsIn] at h ⊢
        by_cases hyx : y = x
        · rw [if_pos hyx] at h ⊢
          exact (ih seen seen2 x hsub).1 h
        · rw [if_neg hyx] at h ⊢
          rw [Bool.and_eq_true] at h ⊢
          refine ⟨?_, (ih (y :: seen) (y :: seen2) y hsub2).1 h.2⟩
          rw [Bool.not_eq_true'] at h ⊢
          exact hcontain h.1
      · intro h
        rw [runsFrom] at h ⊢
        rw [Bool.and_eq_true] at h ⊢
        refine ⟨?_, (ih (y :: seen) (y :: seen2) y hsub2).1 h.2⟩
        rw [Bool.not_eq_true'] at h ⊢
        exact hcontain h.1

theorem start_of_run (l : List Nat) (seen : List Nat) (c : Nat)
    (hc : c ∉ seen) (h : runsIn (c :: seen) c l = true) :
    runsFrom seen l = true := by
  cases l with
  | nil => rfl
  | cons y ys =>
      rw [runsIn] at h
      rw [runsFrom, Bool.and_eq_true]
      by_cases hyc : y = c
      · rw [if_pos hyc] at h
        subst hyc
        refine ⟨by rw [Bool.not_eq_true', memb_false_iff]; exact hc, h⟩
      · rw [if_neg hyc, Bool.and_eq_true] at h
        have hy2 : memb y (c :: seen) = false := by
          have hx := h.1
          rw [Bool.not_eq_true'] at hx
          exact hx
        rw [memb_false_iff] at hy2
        refine ⟨?_, ?_⟩
        · rw [Bool.not_eq_true', memb_false_iff]
          intro hy
          exact hy2 (List.mem_cons_of_mem c hy)
        · refine (runs_mono ys (y :: seen) (y :: c :: seen) y ?_).1 h.2
          intro a ha
          rcases List.mem_cons.mp ha with ha | ha
          · exact ha ▸ List.mem_cons_self y (c :: seen)
          · exact List.mem_cons_of_mem y (List.mem_cons_of_mem c ha)

theorem skip_run (l : List Nat) (seen : List Nat) (c : Nat) (hc : c ∉ l) :
    runsIn seen c l = runsFrom seen l := by
  cases l with
  | nil => rfl
  | cons y ys =>
      have hyc : y ≠ c := by
        intro hx
        exact hc (hx ▸ List.mem_cons_self y ys)
      rw [runsIn, runsFrom, if_neg (fun hx => hyc hx)]

theorem traceRuns (tr : List CallEvent) :
    ∀ (h : Option Nat) (seen : List Nat),
    MutexOKFrom h tr = true →
    (∀ c, c ∈ seen → lockCount c tr = 0) →
    (∀ c, h = some c → c ∈ seen ∧ lockCount c tr = 0) →
    (∀ c, lockCount c tr ≤ 1) →
    (match h with
     | some c => runsIn seen c (emitIds tr)
     | none => runsFrom seen (emitIds tr)) = true := by
  induction tr with
  | nil => intro h seen _ _ _ _; cases h <;> rfl
  | cons e tr ih =>
      intro h seen hmx hseen hhold hone
      cases h with
      | none =>
          cases e with
          | lock c0 =>
              have hmx2 : MutexOKFrom (some c0) tr = true := hmx
              have hlk0 : lockCount c0 tr = 0 := by
                have hx := hone c0
                rw [lockCount_cons, if_pos rfl] at hx
                omega
              have hc0 : c0 ∉ seen := by
                intro hin
                have hx := hseen c0 hin
                rw [lockCount_cons, if_pos rfl] at hx
                omega
              have hseen2 : ∀ c, c ∈ c0 :: seen → lockCount c tr = 0 := by
                intro c hc
                rcases List.mem_cons.mp hc with hc | hc
                · exact hc ▸ hlk0
                · have hx := hseen c hc
                  rw [lockCount_cons] at hx
                  omega
              have hone2 : ∀ c, lockCount c tr ≤ 1 := by
                intro c
                have hx := hone c
                rw [lockCount_cons] at hx
                by_cases hy : CallEvent.lock c0 = CallEvent.lock c
                · rw [if_pos hy] at hx; omega
                · rw [if_neg hy] at hx; omega
              have hhold2 : ∀ c, (some c0 : Option Nat) = some c →
                  c ∈ c0 :: seen ∧ lockCount c tr = 0 := by
                intro c hx
                rw [Option.some.injEq] at hx
                subst hx
                exact ⟨List.mem_cons_self c0 seen, hlk0⟩
              have hrec := ih (some c0) (c0 :: seen) hmx2 hseen2 hhold2 hone2
              exact start_of_run (emitIds tr) seen c0 hc0 hrec
          | unlock c0 => exact absurd hmx (by simp [MutexOKFrom])
          | emit c0 b => exact absurd hmx (by simp [MutexOKFrom])
      | some c1 =>
          cases e with
          | lock c0 => exact absurd hmx (by simp [MutexOKFrom])
          | unlock c0 =>
              rw [show MutexOKFrom (some c1) (CallEvent.unlock c0 :: tr) =
                (decide (c0 = c1) && MutexOKFrom none tr) from rfl,
                Bool.and_eq_true] at hmx
              have hmx2 := hmx.2
              have hnotlock : ∀ c, (CallEvent.unlock c0 : CallEvent) ≠ CallEvent.lock c :=
                fun c hx => CallEvent.noConfusion hx
              have hseen2 : ∀ c, c ∈ seen → lockCount c tr = 0 := by
                intro c hc
                have hx := hseen c hc
                rw [lockCount_cons, if_neg (hnotlock c), Nat.zero_add] at hx
                exact hx
              have hone2 : ∀ c, lockCount c tr ≤ 1 := by
                intro c
                have hx := hone c
                rw [lockCount_cons, if_neg (hnotlock c), Nat.zero_add] at hx
                exact hx
              have hrec := ih none seen hmx2 hseen2
                (by intro c hx; exact Option.noConfusion hx) hone2
              have hl1 : lockCount c1 tr = 0 := by
                have hx := (hhold c1 rfl).2
                rw [lockCount_cons, if_neg (hnotlock c1), Nat.zero_add] at hx
                exact hx
              have hnem : c1 ∉ emitIds tr :=
                noLockNoEmit tr none c1 hmx2
                  (by intro hx; exact Option.noConfusion hx) hl1
              show runsIn seen c1 (emitIds tr) = true
              rw [skip_run (emitIds tr) seen c1 hnem]
              exact hrec
          | emit c0 b =>
              rw [show MutexOKFrom (some c1) (CallEvent.emit c0 b :: tr) =
                (decide (c0 = c1) && MutexOKFrom (some c1) tr) from rfl,
                Bool.and_eq_true, decide_eq_true_eq] at hmx
              obtain ⟨hc01, hmx2⟩ := hmx
              subst hc01
              have hnotlock : ∀ c, (CallEvent.emit c0 b : CallEvent) ≠ CallEvent.lock c :=
                fun c hx => CallEvent.noConfusion hx
              have hseen2 : ∀ c, c ∈ seen → lockCount c tr = 0 := by
                intro c hc
                have hx := hseen c hc
                rw [lockCount_cons, if_neg (hnotlock c), Nat.zero_add] at hx
                exact hx
              have hone2 : ∀ c, lockCount c tr ≤ 1 := by
                intro c
                have hx := hone c
                rw [lockCount_cons, if_neg (hnotlock c), Nat.zero_add] at hx
                exact hx
              have hhold2 : ∀ c, (some c0 : Option Nat) = some c →
                  c ∈ seen ∧ lockCount c tr = 0 := by
                intro c hx
                rw [Option.some.injEq] at hx
                subst hx
                refine ⟨(hhold c0 rfl).1, ?_⟩
                have hy := (hhold c0 rfl).2
                rw [lockCount_cons, if_neg (hnotlock c0), Nat.zero_add] at hy
                exact hy
              have hrec := ih (some c0) seen hmx2 hseen2 hhold2 hone2
              show runsIn seen c0 (emitIds (CallEvent.emit c0 b :: tr)) = true
              rw [show emitIds (CallEvent.emit c0 b :: tr) = c0 :: emitIds tr from rfl]
              rw [runsIn, if_pos rfl]
              exact hrec

theorem interleave_lockCount (ss : List (List CallEvent)) (tr : List CallEvent)
    (hI : Interleave ss tr) (c : Nat) :
    lockCount c tr = (ss.map (lockCount c)).sum := by
  induction hI with
  | nil ss h =>
      rw [show lockCount c [] = 0 from rfl]
      symm
      apply List.sum_eq_zero
      intro x hx
      rw [List.mem_map] at hx
      obtain ⟨s, hs, rfl⟩ := hx
      rw [h s hs]
      rfl
  | cons e s pre post tr hI ih =>
      rw [lockCount_cons, List.map_append, List.sum_append, List.map_cons,
        List.sum_cons, lockCount_cons]
      rw [List.map_append, List.sum_append, List.map_cons, List.sum_cons] at ih
      omega

theorem lockCount_emits_unlock (c cid : Nat) (l : List String) :
    lockCount c (l.map (CallEvent.emit cid) ++ [CallEvent.unlock cid]) = 0 := by
  induction l with
  | nil =>
      rw [List.map_nil, List.nil_append, lockCount_cons,
        if_neg (fun hx => CallEvent.noConfusion hx)]
      rfl
  | cons a l ih =>
      rw [List.map_cons, List.cons_append, lockCount_cons,
        if_neg (fun hx => CallEvent.noConfusion hx), Nat.zero_add]
      exact ih

theorem lockCount_callEvents (c cid : Nat) (ns : String) (id : Int)
    (args : List GoVal) :
    lockCount c (callEvents cid ns id args) = if cid = c then 1 else 0 := by
  rw [callEvents, lockCount_cons, lockCount_emits_unlock]
  by_cases hc : cid = c
  · subst hc
    rw [if_pos rfl, if_pos rfl]
  · rw [if_neg (by intro hx; injection hx with hx2; exact hc hx2), if_neg hc]

theorem sum_map_indicator (c : Nat)
    (calls : List (Nat × String × Int × List GoVal)) :
    ((calls.map fun q => callEvents q.1 q.2.1 q.2.2.1 q.2.2.2).map
      (lockCount c)).sum =
      ((calls.map fun q => q.1).filter (fun x => x = c)).length := by
  induction calls with
  | nil => rfl
  | cons q calls ih =>
      rw [List.map_cons, List.map_cons, List.sum_cons, lockCount_callEvents,
        List.map_cons, List.filter_cons, ih]
      by_cases hq : q.1 = c
      · rw [if_pos hq]
        simp [hq, Nat.add_comm]
      · rw [if_neg hq]
        simp [hq]

theorem nodup_filter_eq_le_one (c : Nat) (l : List Nat) (h : l.Nodup) :
    (l.filter fun x => x = c).length ≤ 1 := by
  induction l with
  | nil => simp
  | cons a l ih =>
      rw [List.nodup_cons] at h
      rw [List.filter_cons]
      by_cases ha : a = c
      · subst ha
        rw [if_pos (by simp)]
        have hz : (l.filter fun x => x = a).length = 0 := by
          rw [List.length_eq_zero]
          rw [List.filter_eq_nil_iff]
          intro x hx
          simp only [decide_eq_true_eq]
          intro hxa
          exact h.1 (hxa ▸ hx)
        rw [List.length_cons, hz]
      · rw [if_neg (by simpa using ha)]
        exact ih h.2

theorem interleave_pair_right (l1 : List CallEvent) :
    Interleave [[], l1] l1 := by
  induction l1 with
  | nil =>
      refine Interleave.nil [[], []] ?_
      intro s hs
      rcases List.mem_cons.mp hs with hs | hs
      · exact hs
      · rcases List.mem_cons.mp hs with hs | hs
        · exact hs
        · exact absurd hs (List.not_mem_nil s)
  | cons e tl ih => exact Interleave.cons e tl [[]] [] tl ih

theorem interleave_two (l1 l2 : List CallEvent) :
    Interleave [l1, l2] (l1 ++ l2) := by
  induction l1 with
  | nil =>
      rw [List.nil_append]
      exact interleave_pair_right l2
  | cons e tl ih => exact Interleave.cons e tl [] [l2] (tl ++ l2) ih

/-- Claim C8: the package-wide mutex is held for a call's whole
encode+write+flush+await-reply body, so in every schedule the runtime can
produce — every mutex-respecting interleaving of the calls' event
sequences, even for calls on distinct connections — the emitted bytes of
the calls form contiguous, non-interleaved runs, one per call. -/
theorem claim_C8 (calls : List (Nat × String × Int × List GoVal))
    (tr : List CallEvent)
    (hnd : (calls.map fun q => q.1).Nodup)
    (hI : Interleave (calls.map fun q => callEvents q.1 q.2.1 q.2.2.1 q.2.2.2) tr)
    (hmx : MutexOK tr = true) :
    contiguousRuns (emitIds tr) = true := by
  have hone : ∀ c, lockCount c tr ≤ 1 := by
    intro c
    rw [interleave_lockCount _ _ hI c, sum_map_indicator]
    exact nodup_filter_eq_le_one c _ hnd
  exact traceRuns tr none [] hmx
    (by intro c hc; exact absurd hc (List.not_mem_nil c))
    (by intro c hx; exact Option.noConfusion hx) hone

/-- Witness for C8 on a concrete sequential schedule of two calls. -/
theorem claim_C8_witness :
    MutexOK demoTrace = true ∧ contiguousRuns (emitIds demoTrace) = true := by
  refine ⟨by decide, ?_⟩
  refine claim_C8
    [(0, "A", 0, [GoVal.vstr "dw"]), (1, "Wire", 0, [GoVal.vint 2])]
    demoTrace (by decide) ?_ (by decide)
  rw [show ([(0, "A", 0, [GoVal.vstr "dw"]),
      (1, "Wire", 0, [GoVal.vint 2])].map
        fun q => callEvents q.1 q.2.1 q.2.2.1 q.2.2.2) =
      [callEvents 0 "A" 0 [GoVal.vstr "dw"],
       callEvents 1 "Wire" 0 [GoVal.vint 2]] from rfl]
  exact interleave_two (callEvents 0 "A" 0 [GoVal.vstr "dw"])
    (callEvents 1 "Wire" 0 [GoVal.vint 2])
